import Mathlib

/-!
Shallow embedding of the rustsec-guardian dependency scanner
(src/scanner/mod.rs, src/analyzer/mod.rs, src/models/mod.rs, src/main.rs).

Strings are modelled as lists of characters; file contents are values
(an absent value models a read failure); the filesystem is a finite tree.
Fallible Rust functions returning anyhow::Result are modelled with Option,
where none stands for the error case.
-/

/-- Character lists stand in for Rust strings. -/
def str (s : String) : List Char := s.data

/-- Severity, from src/models/mod.rs. -/
inductive Severity where
  | Critical
  | High
  | Medium
  | Low
  | Info
deriving DecidableEq, Repr

/-- SecurityIssue, from src/models/mod.rs. -/
structure SecurityIssue where
  severity : Severity
  description : List Char
  affected_versions : List (List Char)
  fix_version : Option (List Char)
deriving DecidableEq, Repr

/-- DependencyInfo, from src/models/mod.rs. -/
structure DependencyInfo where
  name : List Char
  version : List Char
  is_direct : Bool
  features : List (List Char)
  dependencies : List (List Char)
deriving DecidableEq, Repr

/-- A declared dependency of a package (cargo_metadata::Dependency, the
fields the scanner reads: name, version requirement, features). -/
structure Dependency where
  name : List Char
  req : List Char
  features : List (List Char)
deriving DecidableEq, Repr

/-- A build target (cargo_metadata::Target, the field the scanner reads). -/
structure Target where
  kind : List (List Char)
deriving DecidableEq, Repr

/-- A semantic version (semver::Version major/minor/patch, as read by the
scanner; the rendered form is kept alongside as the display string). -/
structure Version where
  major : Nat
  minor : Nat
  patch : Nat
deriving DecidableEq, Repr

/-- Rendering of a version, modelling version.to_string(). -/
def versionToString (v : Version) : List Char :=
  str (Nat.repr v.major) ++ str "." ++ str (Nat.repr v.minor) ++ str "." ++ str (Nat.repr v.patch)

/-- A filesystem entry beneath a package's src directory: either a file
(with its path display string, its extension when it has one, and its
content when reading it succeeds — none models a read failure), or a
subdirectory with its entries in traversal order. -/
inductive FsEntry where
  | file (path : List Char) (ext : Option (List Char)) (content : Option (List Char)) : FsEntry
  | dir (entries : List FsEntry) : FsEntry

/-- Package, the fields of cargo_metadata::Package the program reads.
srcDir models the src subdirectory next to the manifest: none when the
manifest path has no parent or the directory does not exist. -/
structure Package where
  id : List Char
  name : List Char
  version : Version
  dependencies : List Dependency
  targets : List Target
  srcDir : Option (List FsEntry)

/-- Whitespace characters, modelling the regex character class for spaces. -/
def isWs (c : Char) : Bool :=
  c = ' ' || c = '\t' || c = '\n' || c = '\r' || c = '\x0b' || c = '\x0c'

/-- Match a literal character sequence at the start of the text, returning
the rest of the text on success. -/
def dropExact : List Char → List Char → Option (List Char)
  | [], cs => some cs
  | _ :: _, [] => none
  | a :: as, c :: cs => if a = c then dropExact as cs else none

/-- A text pattern, modelling the regexes of the rule catalog: a literal,
a literal followed by optional whitespace and a second literal, or an
alternation of literals. -/
inductive Pat where
  | lit (s : List Char) : Pat
  | gap (a b : List Char) : Pat
  | alt (ss : List (List Char)) : Pat
deriving DecidableEq, Repr

/-- Match a pattern at the start of the text. For the gap form, greedily
skipping the whitespace run is equivalent to the regex since every second
literal in the catalog starts with a non-whitespace character. -/
def patAt : Pat → List Char → Bool
  | Pat.lit s, cs => (dropExact s cs).isSome
  | Pat.gap a b, cs =>
    match dropExact a cs with
    | none => false
    | some rest => (dropExact b (rest.dropWhile isWs)).isSome
  | Pat.alt ss, cs => ss.any (fun s => (dropExact s cs).isSome)

/-- Match a pattern anywhere in the text (Regex::is_match). -/
def patMatch (p : Pat) : List Char → Bool
  | [] => patAt p []
  | c :: cs => patAt p (c :: cs) || patMatch p cs

/-- The rule catalog from SecurityScanner::new (src/scanner/mod.rs):
each entry is (pattern, description, severity), in source order. -/
def scanPatterns : List (Pat × List Char × Severity) :=
  [ (Pat.gap (str "unsafe") (str "\x7b"),
     str "Contains unsafe blocks - review for memory safety",
     Severity.High),
    (Pat.lit (str "std::mem::transmute"),
     str "Uses memory transmutation - potential type safety issues",
     Severity.High),
    (Pat.lit (str "#![no_std]"),
     str "No standard library usage - verify safety implementations",
     Severity.Medium),
    (Pat.gap (str "extern") (str "C"),
     str "FFI usage detected - validate memory safety",
     Severity.Medium),
    (Pat.gap (str "eval") (str "("),
     str "Code evaluation detected - potential security risk",
     Severity.Critical),
    (Pat.lit (str "std::process::Command"),
     str "Process execution capabilities - review for command injection",
     Severity.High),
    (Pat.alt [str "std::fs::write", str "std::fs::create", str "std::fs::remove"],
     str "File system modification - review for proper permissions",
     Severity.Medium),
    (Pat.lit (str "TcpListener::bind"),
     str "Network listener - verify proper security controls",
     Severity.Medium) ]

/-- The issue a matching rule produces for a file, from scan_file:
description is the rule description, " in ", and the file path. -/
def mkFileIssue (path : List Char) (r : Pat × List Char × Severity) : SecurityIssue :=
  { severity := r.2.2
    description := r.2.1 ++ str " in " ++ path
    affected_versions := []
    fix_version := none }

/-- scan_file (src/scanner/mod.rs): reading the file may fail (none);
on success one issue is pushed per matching rule, in catalog order. -/
def scan_file (path : List Char) (content : Option (List Char)) :
    Option (List SecurityIssue) :=
  match content with
  | none => none
  | some text =>
    some (scanPatterns.filterMap
      (fun r => if patMatch r.1 text then some (mkFileIssue path r) else none))

mutual
/-- scan_directory (src/scanner/mod.rs): visit entries in order; recurse
into subdirectories; scan files whose extension is rs; any failure
propagates (the question-mark operator). -/
def scan_directory : List FsEntry → Option (List SecurityIssue)
  | [] => some []
  | e :: es =>
    match scan_entry e with
    | none => none
    | some is =>
      match scan_directory es with
      | none => none
      | some rest => some (is ++ rest)

/-- One loop iteration of scan_directory over a single entry. -/
def scan_entry : FsEntry → Option (List SecurityIssue)
  | FsEntry.dir es => scan_directory es
  | FsEntry.file p ext content =>
    match ext with
    | none => some []
    | some e => if e = str "rs" then scan_file p content else some []
end

/-- check_version (src/scanner/mod.rs): pre-release heuristic. -/
def check_version (package : Package) : List SecurityIssue :=
  if package.version.major = 0 then
    [ { severity := Severity.Low
        description := str "Package " ++ package.name ++ str " is pre-1.0 ("
          ++ versionToString package.version ++ str ") - API may be unstable"
        affected_versions := [versionToString package.version]
        fix_version := none } ]
  else []

/-- The dependency-count issue of check_dependencies. -/
def depCountIssue (package : Package) : SecurityIssue :=
  { severity := Severity.Low
    description := str "Large number of dependencies ("
      ++ str (Nat.repr package.dependencies.length) ++ str ") increases attack surface"
    affected_versions := [versionToString package.version]
    fix_version := none }

/-- The wildcard issue of check_dependencies for one dependency. -/
def wildcardIssue (package : Package) (dep : Dependency) : SecurityIssue :=
  { severity := Severity.High
    description := str "Wildcard dependency version for " ++ dep.name
      ++ str " - security risk"
    affected_versions := [versionToString package.version]
    fix_version := none }

/-- Whether a dependency requirement contains the wildcard marker
(req.to_string().contains of an asterisk). -/
def hasWildcard (dep : Dependency) : Bool := dep.req.any (fun c => c = '*')

/-- check_dependencies (src/scanner/mod.rs): the count check, then one
wildcard issue per offending dependency in declaration order. -/
def check_dependencies (package : Package) : List SecurityIssue :=
  (if package.dependencies.length > 20 then [depCountIssue package] else [])
    ++ package.dependencies.filterMap
        (fun dep => if hasWildcard dep then some (wildcardIssue package dep) else none)

/-- check_build_scripts (src/scanner/mod.rs). -/
def check_build_scripts (package : Package) : List SecurityIssue :=
  if package.targets.any (fun t => t.kind.contains (str "custom-build")) then
    [ { severity := Severity.Medium
        description := str "Package " ++ package.name
          ++ str " contains build scripts - review for security"
        affected_versions := [versionToString package.version]
        fix_version := none } ]
  else []

/-- scan_package (src/scanner/mod.rs): metadata checks in order, then the
source scan under the src directory when it exists; a source-scan error
propagates and fails the whole package scan. -/
def scan_package (package : Package) : Option (List SecurityIssue) :=
  let metaIssues := check_version package ++ check_dependencies package
    ++ check_build_scripts package
  match package.srcDir with
  | none => some metaIssues
  | some entries =>
    match scan_directory entries with
    | none => none
    | some srcIssues => some (metaIssues ++ srcIssues)

/-- A finite map from names to values, modelling std HashMap as an
association list: insert overwrites an existing key, otherwise appends. -/
def mapInsert (k : List Char) (v : α) (m : List (List Char × α)) :
    List (List Char × α) :=
  if m.any (fun kv => kv.1 = k) then
    m.map (fun kv => if kv.1 = k then (k, v) else kv)
  else m ++ [(k, v)]

/-- Lookup in the association-list map. -/
def mapLookup (k : List Char) (m : List (List Char × α)) : Option α :=
  match m.find? (fun kv => kv.1 = k) with
  | none => none
  | some kv => some kv.2

/-- Metadata as returned by the resolver (cargo_metadata::Metadata): the
resolved packages and the id of the root package when one is designated. -/
structure Metadata where
  packages : List Package
  rootId : Option (List Char)

/-- metadata.root_package(): the resolved package whose id the resolver
designated as root, when there is one. -/
def rootPackage (m : Metadata) : Option Package :=
  match m.rootId with
  | none => none
  | some rid => m.packages.find? (fun p => p.id = rid)

/-- DependencyAnalysis, from src/analyzer/mod.rs. -/
structure DependencyAnalysis where
  total_dependencies : Nat
  direct_dependencies : List DependencyInfo
  dependency_tree : List (List Char × List (List Char))
  security_issues : List (List Char × List SecurityIssue)

/-- build_dependency_tree (src/analyzer/mod.rs): insert every package's
name with its dependencies' names, in package order. -/
def build_dependency_tree (packages : List Package) :
    List (List Char × List (List Char)) :=
  packages.foldl
    (fun tree p => mapInsert p.name (p.dependencies.map (fun d => d.name)) tree) []

/-- The issues-map loop of analyze: for every package whose scan succeeds
with a non-empty list, insert it keyed by package name; a failed scan
contributes nothing. -/
def collectIssues (packages : List Package) :
    List (List Char × List SecurityIssue) :=
  packages.foldl
    (fun m p =>
      match scan_package p with
      | none => m
      | some issues => if issues.isEmpty then m else mapInsert p.name issues m)
    []

/-- analyze (src/analyzer/mod.rs): fails when no root package is found,
otherwise assembles the report. -/
def analyze (m : Metadata) : Option DependencyAnalysis :=
  match rootPackage m with
  | none => none
  | some root =>
    some
      { total_dependencies := m.packages.length - 1
        direct_dependencies := root.dependencies.map
          (fun dep =>
            { name := dep.name
              version := dep.req
              is_direct := true
              features := dep.features
              dependencies := [] })
        dependency_tree := build_dependency_tree m.packages
        security_issues := collectIssues m.packages }

/-- Command-line arguments, from src/main.rs. -/
structure Args where
  manifest_path : List Char
  output : List Char
  deep : Bool

/-- The analysis main runs: an Analyzer is created from the manifest path
alone and analyze is invoked on the metadata the resolver returns for that
path (src/main.rs lines 38-42); no other argument reaches the scan. -/
def mainAnalysis (args : Args) (resolver : List Char → Metadata) :
    Option DependencyAnalysis :=
  analyze (resolver args.manifest_path)

mutual
/-- An entry beneath which some file with the rs extension fails to read. -/
def entryFails : FsEntry → Bool
  | FsEntry.file _ ext content =>
    decide (ext = some (str "rs")) && decide (content = none)
  | FsEntry.dir es => listFails es

/-- A list of entries beneath which some rs file fails to read. -/
def listFails : List FsEntry → Bool
  | [] => false
  | e :: es => entryFails e || listFails es
end

/-- Source text for the FFI examples: a C-linkage external-function
declaration exactly as Rust spells it. -/
def ffiText : List Char := str "extern \"C\" fn f() \x7b \x7d"

/-- Entries of the C1 counterexample package's src directory: one readable
file with a detectable pattern and one file whose read fails. -/
def c1Entries : List FsEntry :=
  [ FsEntry.file (str "src/ok.rs") (some (str "rs")) (some (str "unsafe \x7b \x7d")),
    FsEntry.file (str "src/broken.rs") (some (str "rs")) none ]

/-- The C1 counterexample package: pre-1.0 (so a metadata finding exists)
with one readable matching file and one unreadable file. -/
def c1Pkg : Package :=
  { id := str "bad 0.1.0"
    name := str "bad"
    version := { major := 0, minor := 1, patch := 0 }
    dependencies := []
    targets := []
    srcDir := some c1Entries }

/-- Metadata whose only resolved package is the C1 counterexample package. -/
def c1Meta : Metadata :=
  { packages := [c1Pkg], rootId := some (str "bad 0.1.0") }

/-- A minimal metadata value for concrete evaluations: a single root
package with no dependencies and no source directory. -/
def c8Pkg : Package :=
  { id := str "root 1.0.0"
    name := str "root"
    version := { major := 1, minor := 0, patch := 0 }
    dependencies := []
    targets := []
    srcDir := none }

/-- Metadata around c8Pkg. -/
def c8Meta : Metadata :=
  { packages := [c8Pkg], rootId := some (str "root 1.0.0") }

/-- The analysis c8Meta produces. -/
def c8Analysis : DependencyAnalysis :=
  { total_dependencies := 0
    direct_dependencies := []
    dependency_tree := [(str "root", [])]
    security_issues := [] }

/-- The source findings of a package: the directory scan's output under
the src directory, empty when the directory is absent. -/
def srcFindings (package : Package) : List SecurityIssue :=
  match package.srcDir with
  | none => []
  | some entries => (scan_directory entries).getD []

/-- The findings scan_file emits for a readable file, as a filter of the
catalog followed by a map to issues. -/
def fileFindings (path text : List Char) : List SecurityIssue :=
  (scanPatterns.filter (fun r => patMatch r.1 text)).map (mkFileIssue path)

/-- Twenty-one dependencies with plain requirements, for the C5 witness. -/
def c5Deps : List Dependency :=
  (List.range 21).map
    (fun k => { name := str "d" ++ str (Nat.repr k), req := str "1.0", features := [] })

/-- A package with twenty-one dependencies and nothing else of note. -/
def c5Pkg : Package :=
  { id := str "many 1.0.0"
    name := str "many"
    version := { major := 1, minor := 0, patch := 0 }
    dependencies := c5Deps
    targets := []
    srcDir := none }

/-- The findings scanning c5Pkg yields. -/
def c5Res : List SecurityIssue := [depCountIssue c5Pkg]

/-- Twenty-five dependencies with plain requirements, for the C6 witness. -/
def c6Deps : List Dependency :=
  (List.range 25).map
    (fun k => { name := str "d" ++ str (Nat.repr k), req := str "1.0", features := [] })

/-- The example package of the ordering claim: post-1.0, twenty-five
dependencies, a custom-build target, and one source file with an unsafe
block. -/
def c6Pkg : Package :=
  { id := str "libfoo 1.2.3"
    name := str "libfoo"
    version := { major := 1, minor := 2, patch := 3 }
    dependencies := c6Deps
    targets := [ { kind := [str "custom-build"] } ]
    srcDir := some [FsEntry.file (str "src/lib.rs") (some (str "rs"))
      (some (str "fn main() \x7b unsafe \x7b \x7d \x7d"))] }

/-- The three findings scanning c6Pkg yields, in emission order. -/
def c6Res : List SecurityIssue :=
  [ { severity := Severity.Low
      description := str "Large number of dependencies (25) increases attack surface"
      affected_versions := [str "1.2.3"]
      fix_version := none },
    { severity := Severity.Medium
      description := str "Package libfoo contains build scripts - review for security"
      affected_versions := [str "1.2.3"]
      fix_version := none },
    { severity := Severity.High
      description := str "Contains unsafe blocks - review for memory safety in src/lib.rs"
      affected_versions := []
      fix_version := none } ]

/-- A wildcard dependency for the C10 witness. -/
def c10Dep : Dependency := { name := str "x", req := str "*", features := [] }

/-- A package with one wildcard dependency. -/
def c10Pkg : Package :=
  { id := str "w 1.0.0"
    name := str "w"
    version := { major := 1, minor := 0, patch := 0 }
    dependencies := [c10Dep]
    targets := []
    srcDir := none }

/-- Metadata around c10Pkg. -/
def c10Meta : Metadata := { packages := [c10Pkg], rootId := some (str "w 1.0.0") }

/-- The analysis c10Meta produces: one wildcard finding for package w. -/
def c10Analysis : DependencyAnalysis :=
  { total_dependencies := 0
    direct_dependencies :=
      [ { name := str "x", version := str "*", is_direct := true,
          features := [], dependencies := [] } ]
    dependency_tree := [(str "w", [str "x"])]
    security_issues := [(str "w", [wildcardIssue c10Pkg c10Dep])] }

/-- One of two same-named packages for the C4 counterexample. -/
def c4PkgA : Package :=
  { id := str "a 1.0.0"
    name := str "a"
    version := { major := 1, minor := 0, patch := 0 }
    dependencies := []
    targets := []
    srcDir := none }

/-- The second same-named package, with one dependency. -/
def c4PkgB : Package :=
  { id := str "a 2.0.0"
    name := str "a"
    version := { major := 2, minor := 0, patch := 0 }
    dependencies := [ { name := str "b", req := str "1.0", features := [] } ]
    targets := []
    srcDir := none }

/-- A resolved set with two packages sharing one name. -/
def c4Pkgs : List Package := [c4PkgA, c4PkgB]

/-- Filtering with a test and mapping is the same as the conditional
filterMap the scanners use. -/
theorem filterMap_ite (q : α → Bool) (f : α → β) (l : List α) :
    l.filterMap (fun a => if q a then some (f a) else none)
      = (l.filter q).map f := by
  induction l with
  | nil => rfl
  | cons a l ih =>
    by_cases hq : q a
    · simp [List.filterMap_cons, List.filter_cons, hq, ih]
    · simp [List.filterMap_cons, List.filter_cons, hq, ih]

/-- Every issue a successful file scan emits has empty affected-versions
and no fix-version. -/
theorem scan_file_issue_fields (path : List Char) (content : Option (List Char))
    (res : List SecurityIssue) (h : scan_file path content = some res) :
    ∀ i ∈ res, i.affected_versions = [] ∧ i.fix_version = none := by
  intro i hi
  cases content with
  | none => simp [scan_file] at h
  | some text =>
    simp only [scan_file, Option.some.injEq] at h
    subst h
    rcases List.mem_filterMap.mp hi with ⟨r, _, hr⟩
    by_cases hm : patMatch r.1 text
    · simp only [hm, if_true, Option.some.injEq] at hr
      subst hr
      exact ⟨rfl, rfl⟩
    · simp [hm] at hr

mutual
/-- Every issue a successful directory scan emits has empty
affected-versions and no fix-version. -/
theorem scan_directory_issue_fields : ∀ (es : List FsEntry) (res : List SecurityIssue),
    scan_directory es = some res →
    ∀ i ∈ res, i.affected_versions = [] ∧ i.fix_version = none
  | [], res, h, i, hi => by
      simp only [scan_directory, Option.some.injEq] at h
      subst h
      simp at hi
  | e :: es, res, h, i, hi => by
      rw [scan_directory] at h
      cases he : scan_entry e with
      | none => rw [he] at h; exact absurd h (by simp)
      | some is =>
        rw [he] at h
        cases hd : scan_directory es with
        | none => rw [hd] at h; exact absurd h (by simp)
        | some rest =>
          rw [hd] at h
          simp only [Option.some.injEq] at h
          subst h
          rcases List.mem_append.mp hi with hmem | hmem
          · exact scan_entry_issue_fields e is he i hmem
          · exact scan_directory_issue_fields es rest hd i hmem

/-- Entry-level counterpart of scan_directory_issue_fields. -/
theorem scan_entry_issue_fields : ∀ (e : FsEntry) (res : List SecurityIssue),
    scan_entry e = some res →
    ∀ i ∈ res, i.affected_versions = [] ∧ i.fix_version = none
  | FsEntry.dir es, res, h, i, hi => scan_directory_issue_fields es res h i hi
  | FsEntry.file p ext content, res, h, i, hi => by
      simp only [scan_entry.eq_def] at h
      cases ext with
      | none =>
        simp only [Option.some.injEq] at h
        subst h
        simp at hi
      | some e =>
        change (if e = str "rs" then scan_file p content else some []) = some res at h
        by_cases hrs : e = str "rs"
        · rw [if_pos hrs] at h
          exact scan_file_issue_fields p content res h i hi
        · rw [if_neg hrs] at h
          simp only [Option.some.injEq] at h
          subst h
          simp at hi
end

mutual
/-- A directory scan over entries containing a failing rs file returns the
error case. -/
theorem scan_directory_fails : ∀ es : List FsEntry,
    listFails es = true → scan_directory es = none
  | e :: es, h => by
      rw [listFails] at h
      rw [scan_directory]
      rcases Bool.or_eq_true_iff.mp h with hf | hf
      · rw [scan_entry_fails e hf]
      · cases he : scan_entry e with
        | none => rfl
        | some is => rw [scan_directory_fails es hf]

/-- Entry-level counterpart of scan_directory_fails. -/
theorem scan_entry_fails : ∀ e : FsEntry,
    entryFails e = true → scan_entry e = none
  | FsEntry.dir es, h => by
      rw [entryFails] at h
      exact scan_directory_fails es h
  | FsEntry.file p ext content, h => by
      rw [entryFails] at h
      rcases Bool.and_eq_true_iff.mp h with ⟨h1, h2⟩
      have hext : ext = some (str "rs") := of_decide_eq_true h1
      have hc : content = none := of_decide_eq_true h2
      subst hext; subst hc
      simp [scan_entry, scan_file]
end

/-- C1 (amended): a read failure of an rs file beneath a package's src
directory fails the whole package scan, so the package contributes zero
findings — its metadata findings and the findings of every other readable
file included. -/
theorem file_read_failure_fails_whole_package (p : Package) (es : List FsEntry)
    (h1 : p.srcDir = some es) (h2 : listFails es = true) :
    scan_package p = none := by
  simp only [scan_package, h1, scan_directory_fails es h2]

/-- Witness for file_read_failure_fails_whole_package at the concrete
package c1Pkg. -/
theorem file_read_failure_fails_whole_package_witness :
    scan_package c1Pkg = none :=
  file_read_failure_fails_whole_package c1Pkg c1Entries rfl (by decide)

/-- C1 counterexample: the claim fails on the code. The package c1Pkg has
a metadata finding (pre-1.0) and a readable source file with a finding,
yet because one other file fails to read, the issues map of the whole
analysis is empty — the package's findings are not present, and the
single file-read failure yields zero findings for the whole package. -/
theorem file_read_failure_counterexample :
    check_version c1Pkg ≠ []
    ∧ scan_file (str "src/ok.rs") (some (str "unsafe \x7b \x7d")) ≠ some []
    ∧ (analyze c1Meta).map DependencyAnalysis.security_issues = some [] := by
  refine ⟨by decide, by decide, by decide⟩

/-- C3: the FFI rule never fires on an actual C-linkage external-function
declaration. The text contains the declaration (first conjunct, using the
literal matcher on the very text), yet the source scan of a file with that
text emits no finding at all — in particular no Medium FFI finding. -/
theorem ffi_rule_misses_c_linkage :
    patMatch (Pat.lit (str "extern \"C\"")) ffiText = true
    ∧ scan_file (str "src/lib.rs") (some ffiText) = some [] := by
  refine ⟨by decide, by decide⟩

/-- C8: whenever the analysis succeeds, total_dependencies equals the
resolved package count minus one, independent of findings or graph shape. -/
theorem total_dependencies_eq_package_count_minus_one
    (m : Metadata) (a : DependencyAnalysis) (h : analyze m = some a) :
    a.total_dependencies = m.packages.length - 1 := by
  rw [analyze] at h
  cases hr : rootPackage m with
  | none => rw [hr] at h; exact absurd h (by simp)
  | some root =>
    rw [hr] at h
    simp only [Option.some.injEq] at h
    subst h
    rfl

/-- Witness for total_dependencies_eq_package_count_minus_one at the
concrete metadata c8Meta. -/
theorem total_dependencies_witness :
    c8Analysis.total_dependencies = c8Meta.packages.length - 1 :=
  total_dependencies_eq_package_count_minus_one c8Meta c8Analysis rfl

/-- C9: the deep-scan flag has no observable effect — for any manifest
path, output selector and resolver, the analysis produced with the flag
set equals the analysis produced with it cleared. -/
theorem deep_scan_flag_inert (mp out : List Char) (d1 d2 : Bool)
    (resolver : List Char → Metadata) :
    mainAnalysis { manifest_path := mp, output := out, deep := d1 } resolver
      = mainAnalysis { manifest_path := mp, output := out, deep := d2 } resolver := rfl

/-- Two issues whose descriptions start with different characters differ. -/
theorem issue_ne_of_desc_head {i j : SecurityIssue} {a b : Char}
    (ha : i.description.head? = some a) (hb : j.description.head? = some b)
    (hab : a ≠ b) : i ≠ j := by
  intro he
  subst he
  rw [ha] at hb
  injection hb with h
  exact hab h

/-- Decomposition of a successful package scan: the metadata checks in
source order followed by the source findings. -/
theorem scan_package_decomp (p : Package) (res : List SecurityIssue)
    (h : scan_package p = some res) :
    res = check_version p ++ check_dependencies p ++ check_build_scripts p
      ++ srcFindings p := by
  cases hs : p.srcDir with
  | none =>
    simp only [scan_package, hs, Option.some.injEq] at h
    subst h
    simp [srcFindings, hs]
  | some es =>
    simp only [scan_package, hs] at h
    cases hd : scan_directory es with
    | none => rw [hd] at h; exact absurd h (by simp)
    | some src =>
      rw [hd] at h
      simp only [Option.some.injEq] at h
      subst h
      simp [srcFindings, hs, hd, List.append_assoc]

/-- Every source finding has empty affected-versions and no fix-version. -/
theorem srcFindings_fields (p : Package) :
    ∀ i ∈ srcFindings p, i.affected_versions = [] ∧ i.fix_version = none := by
  intro i hi
  cases hs : p.srcDir with
  | none => rw [srcFindings.eq_def, hs] at hi; simp at hi
  | some es =>
    rw [srcFindings.eq_def, hs] at hi
    simp only at hi
    cases hd : scan_directory es with
    | none => rw [hd] at hi; simp at hi
    | some src =>
      rw [hd] at hi
      exact scan_directory_issue_fields es src hd i (by simpa using hi)

/-- The dependency-count finding is never emitted by the pre-release check. -/
theorem depCount_not_in_check_version (p : Package) :
    depCountIssue p ∉ check_version p := by
  intro hmem
  rw [check_version] at hmem
  by_cases hm : p.version.major = 0
  · rw [if_pos hm] at hmem
    have he := List.mem_singleton.mp hmem
    have hh : (some 'L' : Option Char) = some 'P' :=
      congrArg (fun i => i.description.head?) he
    exact absurd hh (by decide)
  · rw [if_neg hm] at hmem
    exact absurd hmem (List.not_mem_nil _)

/-- The dependency-count finding is never emitted by the build-script check. -/
theorem depCount_not_in_build_scripts (p : Package) :
    depCountIssue p ∉ check_build_scripts p := by
  intro hmem
  rw [check_build_scripts] at hmem
  by_cases hm : p.targets.any (fun t => t.kind.contains (str "custom-build")) = true
  · rw [if_pos hm] at hmem
    have he := List.mem_singleton.mp hmem
    have hh : (some 'L' : Option Char) = some 'P' :=
      congrArg (fun i => i.description.head?) he
    exact absurd hh (by decide)
  · rw [if_neg hm] at hmem
    exact absurd hmem (List.not_mem_nil _)

/-- Within check_dependencies the dependency-count finding appears exactly
once over twenty dependencies and never otherwise. -/
theorem depCount_count_in_deps (p : Package) :
    (check_dependencies p).count (depCountIssue p)
      = if p.dependencies.length > 20 then 1 else 0 := by
  rw [check_dependencies, List.count_append]
  have h2 : (p.dependencies.filterMap
      (fun dep => if hasWildcard dep then some (wildcardIssue p dep) else none)).count
        (depCountIssue p) = 0 := by
    rw [List.count_eq_zero]
    intro hmem
    rcases List.mem_filterMap.mp hmem with ⟨d, _, heq⟩
    by_cases hw : hasWildcard d = true
    · rw [if_pos hw] at heq
      injection heq with heq
      have hh : (some 'W' : Option Char) = some 'L' :=
        congrArg (fun i => i.description.head?) heq
      exact absurd hh (by decide)
    · rw [if_neg hw] at heq
      cases heq
  have h1 : (if p.dependencies.length > 20 then [depCountIssue p] else []).count
      (depCountIssue p) = if p.dependencies.length > 20 then 1 else 0 := by
    by_cases h : p.dependencies.length > 20
    · simp [h]
    · simp [h]
  rw [h1, h2]
  by_cases h : p.dependencies.length > 20 <;> simp [h]

/-- C2: within the dependency check, the High-severity findings are
exactly one wildcard finding per direct dependency whose requirement
contains the wildcard marker, in declaration order, and every wildcard
finding attributes affected-versions to the scanning package's own
version string. -/
theorem wildcard_one_finding_per_wildcarded_dep (p : Package) :
    (check_dependencies p).filter (fun i => decide (i.severity = Severity.High))
      = (p.dependencies.filter hasWildcard).map (wildcardIssue p)
    ∧ ∀ d : Dependency, (wildcardIssue p d).severity = Severity.High
        ∧ (wildcardIssue p d).affected_versions = [versionToString p.version] := by
  refine ⟨?_, fun d => ⟨rfl, rfl⟩⟩
  rw [check_dependencies, filterMap_ite, List.filter_append]
  have h1 : (if p.dependencies.length > 20 then [depCountIssue p] else []).filter
      (fun i => decide (i.severity = Severity.High)) = [] := by
    by_cases h : p.dependencies.length > 20
    · simp [h, depCountIssue]
    · simp [h]
  rw [h1, List.nil_append, List.filter_map]
  have h2 : ((fun i => decide (i.severity = Severity.High)) ∘ wildcardIssue p)
      = fun _ => true := by
    funext d
    simp [wildcardIssue]
  rw [h2, List.filter_true]

/-- C5: a successful package scan contains the dependency-count finding
exactly once when the package has more than twenty direct dependencies
and never otherwise; in particular twenty-one dependencies yield it and
twenty do not. -/
theorem dep_count_finding_iff_over_twenty (p : Package) (res : List SecurityIssue)
    (h : scan_package p = some res) :
    res.count (depCountIssue p) = if p.dependencies.length > 20 then 1 else 0 := by
  have hsrc : depCountIssue p ∉ srcFindings p := by
    intro hmem
    have hf := (srcFindings_fields p _ hmem).1
    simp [depCountIssue] at hf
  rw [scan_package_decomp p res h]
  simp only [List.count_append]
  rw [List.count_eq_zero.mpr (depCount_not_in_check_version p),
      depCount_count_in_deps p,
      List.count_eq_zero.mpr (depCount_not_in_build_scripts p),
      List.count_eq_zero.mpr hsrc]
  by_cases hlen : p.dependencies.length > 20 <;> simp [hlen]

/-- Witness for dep_count_finding_iff_over_twenty at a package with
twenty-one dependencies. -/
theorem dep_count_finding_witness :
    c5Res.count (depCountIssue c5Pkg)
      = if c5Pkg.dependencies.length > 20 then 1 else 0 :=
  dep_count_finding_iff_over_twenty c5Pkg c5Res (by decide)

/-- C6: a successful package scan's finding list is ordered with the
metadata findings first — the pre-release check, then the
dependency-count finding when present, then one wildcard finding per
offending dependency in declaration order, then the build-script
check — followed by all source-scan findings. -/
theorem scan_package_finding_order (p : Package) (res : List SecurityIssue)
    (h : scan_package p = some res) :
    res = check_version p
      ++ ((if p.dependencies.length > 20 then [depCountIssue p] else [])
            ++ (p.dependencies.filter hasWildcard).map (wildcardIssue p))
      ++ check_build_scripts p
      ++ srcFindings p := by
  rw [scan_package_decomp p res h, check_dependencies, filterMap_ite]

/-- Witness for scan_package_finding_order at the example package: post-1.0,
twenty-five dependencies, a custom-build target and one unsafe block, whose
scan yields exactly the three findings of c6Res in that order. -/
theorem scan_package_finding_order_witness :
    c6Res = check_version c6Pkg
      ++ ((if c6Pkg.dependencies.length > 20 then [depCountIssue c6Pkg] else [])
            ++ (c6Pkg.dependencies.filter hasWildcard).map (wildcardIssue c6Pkg))
      ++ check_build_scripts c6Pkg
      ++ srcFindings c6Pkg :=
  scan_package_finding_order c6Pkg c6Res (by decide)

/-- Membership after a map insertion comes from the old map or is the
inserted pair. -/
theorem mapInsert_mem {α : Type} (k : List Char) (v : α)
    (m : List (List Char × α)) (kv : List Char × α)
    (h : kv ∈ mapInsert k v m) : kv ∈ m ∨ kv = (k, v) := by
  rw [mapInsert] at h
  split at h
  · rcases List.mem_map.mp h with ⟨kv0, hkv0, heq⟩
    split at heq
    · right; exact heq.symm
    · left; exact heq ▸ hkv0
  · rcases List.mem_append.mp h with h | h
    · left; exact h
    · right; exact List.mem_singleton.mp h

/-- Every issue of a successful package scan has no fix-version. -/
theorem scan_package_fix_none (p : Package) (res : List SecurityIssue)
    (h : scan_package p = some res) : ∀ i ∈ res, i.fix_version = none := by
  intro i hi
  rw [scan_package_decomp p res h] at hi
  simp only [List.append_assoc, List.mem_append] at hi
  rcases hi with h1 | h2 | h3 | h4
  · rw [check_version] at h1
    split at h1
    · rw [List.mem_singleton.mp h1]
    · cases h1
  · rw [check_dependencies] at h2
    rcases List.mem_append.mp h2 with h2a | h2b
    · split at h2a
      · rw [List.mem_singleton.mp h2a]; rfl
      · cases h2a
    · rcases List.mem_filterMap.mp h2b with ⟨d, _, heq⟩
      split at heq
      · injection heq with heq
        rw [← heq]
        rfl
      · cases heq
  · rw [check_build_scripts] at h3
    split at h3
    · rw [List.mem_singleton.mp h3]
    · cases h3
  · exact (srcFindings_fields p i h4).2

/-- The fold of the orchestrator's issues loop preserves the absence of
fix-versions. -/
theorem collectIssues_fix_aux : ∀ (ps : List Package)
    (acc : List (List Char × List SecurityIssue)),
    (∀ kv ∈ acc, ∀ i ∈ kv.2, i.fix_version = none) →
    ∀ kv ∈ ps.foldl
      (fun m p =>
        match scan_package p with
        | none => m
        | some issues => if issues.isEmpty then m else mapInsert p.name issues m)
      acc,
    ∀ i ∈ kv.2, i.fix_version = none := by
  intro ps
  induction ps with
  | nil => intro acc hacc kv hkv; exact hacc kv hkv
  | cons p ps ih =>
    intro acc hacc kv hkv
    rw [List.foldl_cons] at hkv
    refine ih _ ?_ kv hkv
    intro kv' hkv' i hi
    cases hp : scan_package p with
    | none => rw [hp] at hkv'; exact hacc kv' hkv' i hi
    | some issues =>
      rw [hp] at hkv'
      change kv' ∈ (if issues.isEmpty = true then acc
        else mapInsert p.name issues acc) at hkv'
      by_cases hempty : issues.isEmpty = true
      · rw [if_pos hempty] at hkv'
        exact hacc kv' hkv' i hi
      · rw [if_neg hempty] at hkv'
        rcases mapInsert_mem p.name issues acc kv' hkv' with hm | he
        · exact hacc kv' hm i hi
        · rw [he] at hi
          exact scan_package_fix_none p issues hp i hi

/-- C10: in a successful analysis, no finding in the issues map carries a
fix-version, whatever code path produced it. -/
theorem no_finding_has_fix_version (m : Metadata) (a : DependencyAnalysis)
    (h : analyze m = some a) :
    ∀ kv ∈ a.security_issues, ∀ i ∈ kv.2, i.fix_version = none := by
  have hsec : a.security_issues = collectIssues m.packages := by
    rw [analyze] at h
    cases hr : rootPackage m with
    | none => rw [hr] at h; exact absurd h (by simp)
    | some root =>
      rw [hr] at h
      simp only [Option.some.injEq] at h
      subst h
      rfl
  rw [hsec, collectIssues]
  exact collectIssues_fix_aux m.packages [] (by intro kv hkv; cases hkv)

/-- Witness for no_finding_has_fix_version at an analysis holding one
wildcard finding. -/
theorem no_finding_has_fix_version_witness :
    (wildcardIssue c10Pkg c10Dep).fix_version = none :=
  no_finding_has_fix_version c10Meta c10Analysis rfl
    (str "w", [wildcardIssue c10Pkg c10Dep]) (by decide)
    (wildcardIssue c10Pkg c10Dep) (by decide)

/-- The catalog's descriptions determine its entries. -/
theorem scanPatterns_desc_inj : ∀ r1 ∈ scanPatterns, ∀ r2 ∈ scanPatterns,
    r1.2.1 = r2.2.1 → r1 = r2 := by decide

/-- The catalog has no duplicate entries. -/
theorem scanPatterns_nodup : scanPatterns.Nodup := by decide

/-- Building a file issue is injective on catalog entries. -/
theorem mkFileIssue_inj (path : List Char) :
    ∀ r1 ∈ scanPatterns, ∀ r2 ∈ scanPatterns,
    mkFileIssue path r1 = mkFileIssue path r2 → r1 = r2 := by
  intro r1 h1 r2 h2 he
  have hd := congrArg SecurityIssue.description he
  simp only [mkFileIssue, List.append_assoc] at hd
  exact scanPatterns_desc_inj r1 h1 r2 h2 (List.append_cancel_right hd)

/-- In a duplicate-free list, a test satisfied exactly by one member
counts exactly one element. -/
theorem countP_eq_one_of_nodup {α : Type} (p : α → Bool) :
    ∀ (l : List α), l.Nodup → ∀ a : α, a ∈ l →
    (∀ x ∈ l, p x = true ↔ x = a) → l.countP p = 1 := by
  intro l
  induction l with
  | nil => intro _ a ha; cases ha
  | cons b l ih =>
    intro hnd a ha hp
    have hnd' := List.nodup_cons.mp hnd
    rw [List.countP_cons]
    rcases List.mem_cons.mp ha with rfl | ha'
    · have hb : p a = true := (hp a (List.mem_cons_self a l)).mpr rfl
      have hzero : l.countP p = 0 := by
        rw [List.countP_eq_zero]
        intro x hx hpx
        have hxa := (hp x (List.mem_cons_of_mem a hx)).mp hpx
        exact hnd'.1 (hxa ▸ hx)
      rw [hzero, hb]
      rfl
    · have hb : ¬ p b = true := by
        intro hpb
        have hba := (hp b (List.mem_cons_self b l)).mp hpb
        exact hnd'.1 (hba ▸ ha')
      rw [if_neg hb]
      rw [ih hnd'.2 a ha' (fun x hx => hp x (List.mem_cons_of_mem b hx))]

/-- C7: scanning a readable source file succeeds with the findings of
fileFindings: exactly one finding per catalog rule whose pattern matches
the text — regardless of how often it occurs — whose description is the
rule description followed by " in " and the path, severity copied from
the rule, empty affected-versions and no fix-version. -/
theorem scan_file_one_finding_per_matching_rule (path text : List Char) :
    scan_file path (some text) = some (fileFindings path text)
    ∧ (∀ r ∈ scanPatterns,
        (fileFindings path text).count (mkFileIssue path r)
          = if patMatch r.1 text then 1 else 0)
    ∧ ∀ i ∈ fileFindings path text,
        i.affected_versions = [] ∧ i.fix_version = none
        ∧ ∃ r ∈ scanPatterns, patMatch r.1 text = true
            ∧ i.severity = r.2.2 ∧ i.description = r.2.1 ++ str " in " ++ path := by
  refine ⟨?_, ?_, ?_⟩
  · rw [scan_file, fileFindings, filterMap_ite]
  · intro r hr
    rw [fileFindings, List.count_eq_countP, List.countP_map]
    have hcong : List.countP ((fun x => x == mkFileIssue path r) ∘ mkFileIssue path)
        (scanPatterns.filter (fun r => patMatch r.1 text))
        = List.countP (fun x => x == r)
          (scanPatterns.filter (fun r => patMatch r.1 text)) := by
      refine List.countP_congr ?_
      intro r' hr'
      have hr'' := (List.mem_filter.mp hr').1
      simp only [Function.comp_apply, beq_iff_eq]
      constructor
      · intro he
        exact mkFileIssue_inj path r' hr'' r hr he
      · intro he
        rw [he]
    rw [hcong]
    by_cases hm : patMatch r.1 text = true
    · rw [if_pos hm]
      refine countP_eq_one_of_nodup _ _
        (List.Nodup.filter _ scanPatterns_nodup) r
        (List.mem_filter.mpr ⟨hr, hm⟩) ?_
      intro x _
      exact beq_iff_eq
    · rw [if_neg hm, List.countP_eq_zero]
      intro x hx hbeq
      have hxr : x = r := beq_iff_eq.mp hbeq
      exact hm (hxr ▸ (List.mem_filter.mp hx).2)
  · intro i hi
    rw [fileFindings] at hi
    rcases List.mem_map.mp hi with ⟨r, hrf, rfl⟩
    have hrm := List.mem_filter.mp hrf
    exact ⟨rfl, rfl, ⟨r, hrm.1, hrm.2, rfl, rfl⟩⟩

/-- Lookup steps through an association list one entry at a time. -/
theorem mapLookup_cons {α : Type} (k : List Char) (x : List Char × α)
    (l : List (List Char × α)) :
    mapLookup k (x :: l) = if x.1 = k then some x.2 else mapLookup k l := by
  rw [mapLookup, List.find?]
  by_cases h : x.1 = k
  · simp [h, mapLookup]
  · simp [h, mapLookup]

/-- Folding the graph-builder insertions over packages whose names avoid
the accumulator and repeat nowhere appends one entry per package. -/
theorem build_tree_aux : ∀ (ps : List Package)
    (acc : List (List Char × List (List Char))),
    (ps.map Package.name).Nodup →
    (∀ p ∈ ps, acc.any (fun kv => kv.1 = p.name) = false) →
    ps.foldl (fun tree p =>
        mapInsert p.name (p.dependencies.map (fun d => d.name)) tree) acc
      = acc ++ ps.map (fun p => (p.name, p.dependencies.map (fun d => d.name))) := by
  intro ps
  induction ps with
  | nil => intro acc _ _; simp
  | cons p ps ih =>
    intro acc hnd hfresh
    have hnd' : (p.name ∉ ps.map Package.name) ∧ (ps.map Package.name).Nodup :=
      List.nodup_cons.mp (by simpa using hnd)
    rw [List.foldl_cons]
    have hstep : mapInsert p.name (p.dependencies.map (fun d => d.name)) acc
        = acc ++ [(p.name, p.dependencies.map (fun d => d.name))] := by
      simp [mapInsert, hfresh p (List.mem_cons_self p ps)]
    have hfresh' : ∀ q ∈ ps,
        (acc ++ [(p.name, p.dependencies.map (fun d => d.name))]).any
          (fun kv => kv.1 = q.name) = false := by
      intro q hq
      rw [List.any_append, hfresh q (List.mem_cons_of_mem p hq)]
      have hne : ¬ p.name = q.name := by
        intro he
        exact hnd'.1 (he ▸ List.mem_map_of_mem Package.name hq)
      simp [hne]
    calc List.foldl (fun tree p =>
          mapInsert p.name (p.dependencies.map (fun d => d.name)) tree)
          (mapInsert p.name (p.dependencies.map (fun d => d.name)) acc) ps
        = List.foldl (fun tree p =>
            mapInsert p.name (p.dependencies.map (fun d => d.name)) tree)
            (acc ++ [(p.name, p.dependencies.map (fun d => d.name))]) ps := by
          rw [hstep]
      _ = acc ++ [(p.name, p.dependencies.map (fun d => d.name))]
            ++ ps.map (fun p => (p.name, p.dependencies.map (fun d => d.name))) :=
          ih _ hnd'.2 hfresh'
      _ = acc ++ (p :: ps).map
            (fun p => (p.name, p.dependencies.map (fun d => d.name))) := by
          simp

/-- Looking a member package's name up in the one-entry-per-package list
returns its dependencies' names, provided names repeat nowhere. -/
theorem lookup_mapped : ∀ (ps : List Package), (ps.map Package.name).Nodup →
    ∀ p ∈ ps, mapLookup p.name
      (ps.map (fun q => (q.name, q.dependencies.map (fun d => d.name))))
      = some (p.dependencies.map (fun d => d.name)) := by
  intro ps
  induction ps with
  | nil => intro _ p hp; cases hp
  | cons q ps ih =>
    intro hnd p hp
    have hnd' : (q.name ∉ ps.map Package.name) ∧ (ps.map Package.name).Nodup :=
      List.nodup_cons.mp (by simpa using hnd)
    rw [List.map_cons, mapLookup_cons]
    by_cases he : q.name = p.name
    · rcases List.mem_cons.mp hp with rfl | hp'
      · rw [if_pos rfl]
      · exact absurd (he ▸ List.mem_map_of_mem Package.name hp') hnd'.1
    · rw [if_neg he]
      rcases List.mem_cons.mp hp with rfl | hp'
      · exact absurd rfl he
      · exact ih hnd'.2 p hp'

/-- C4 (amended): for every resolved package set whose package names are
pairwise distinct, the dependency graph contains exactly one entry per
resolved package, keyed by the package's name, and each entry's value is
the list of that package's direct dependencies' names in declaration
order — the empty list when it has none. -/
theorem dependency_tree_complete_of_distinct_names (packages : List Package)
    (hnd : (packages.map Package.name).Nodup) :
    (build_dependency_tree packages).length = packages.length
    ∧ ∀ p ∈ packages,
        mapLookup p.name (build_dependency_tree packages)
          = some (p.dependencies.map (fun d => d.name)) := by
  have hb : build_dependency_tree packages
      = packages.map (fun p => (p.name, p.dependencies.map (fun d => d.name))) := by
    have h := build_tree_aux packages [] hnd (fun p _ => rfl)
    simpa [build_dependency_tree] using h
  refine ⟨by rw [hb, List.length_map], ?_⟩
  intro p hp
  rw [hb]
  exact lookup_mapped packages hnd p hp

/-- Witness for dependency_tree_complete_of_distinct_names: a singleton
set whose only package has no dependencies maps to the empty list. -/
theorem dependency_tree_complete_witness :
    mapLookup c4PkgA.name (build_dependency_tree [c4PkgA]) = some [] :=
  (dependency_tree_complete_of_distinct_names [c4PkgA] (by decide)).2
    c4PkgA (List.mem_singleton.mpr rfl)

/-- C4 counterexample: with two resolved packages sharing the name a, the
graph has a single entry, not one per resolved package, and the entry
under the first package's name holds one dependency name although that
package declares none. -/
theorem dependency_tree_duplicate_name_counterexample :
    (build_dependency_tree c4Pkgs).length = 1
    ∧ c4Pkgs.length = 2
    ∧ mapLookup c4PkgA.name (build_dependency_tree c4Pkgs) = some [str "b"]
    ∧ c4PkgA.dependencies.length = 0 := by
  refine ⟨by decide, by decide, by decide, by decide⟩
